import Mathlib

/-!
Verification of the Squire secrets subsystem (`src/rust/src/crypto/secrets.rs`,
`src/rust/src/crypto/passwords.rs`, `src/rust/src/crypto/integrity.rs`,
`src/rust/src/config.rs`).

The Rust code is shallowly embedded: bytes are `Nat` values (with `< 256`
bounds carried as hypotheses where they matter), fallible operations return
`Except`/`Option`, and the ambient effects of the code (OS randomness for the
nonce and the salt, environment-variable lookup, file reads, the external
Argon2 primitive) are made explicit as parameters.  The base64 codec
(`STANDARD_NO_PAD` of the `base64` crate) and the ChaCha20-Poly1305 AEAD of
the `chacha20poly1305` crate are embedded concretely, following RFC 8439,
because the claims about `encrypt_secret`/`decrypt_secret` rest on their
algebra.
-/

deriving instance DecidableEq for Except

namespace Squire

/-! ## Base64, `STANDARD_NO_PAD` engine of the `base64` crate.

The engine uses the standard alphabet, no padding, and rejects input whose
length is 1 mod 4, any symbol outside the alphabet, and non-zero trailing
bits in the final partial group. -/

def b64Alphabet : List Char :=
  "ABCDEFGHIJKLMNOPQRSTUVWXYZabcdefghijklmnopqrstuvwxyz0123456789+/".data

def sextetToChar (s : Nat) : Char := b64Alphabet.getD s 'A'

def charToSextet (c : Char) : Option Nat := b64Alphabet.indexOf? c

/-- Bytes to 6-bit groups, 3 bytes to 4 sextets, with the final 1 or 2
bytes producing 2 or 3 sextets whose trailing bits are zero. -/
def bytesToSextets : List Nat → List Nat
  | [] => []
  | [a] => [a / 4, a % 4 * 16]
  | [a, b] => [a / 4, a % 4 * 16 + b / 16, b % 16 * 4]
  | a :: b :: c :: rest =>
      a / 4 :: (a % 4 * 16 + b / 16) :: (b % 16 * 4 + c / 64) :: c % 64 ::
        bytesToSextets rest

/-- 6-bit groups back to bytes; `none` on a length of 1 mod 4 or on
non-zero trailing bits in the final group. -/
def sextetsToBytes : List Nat → Option (List Nat)
  | [] => some []
  | [_] => none
  | [s1, s2] => if s2 % 16 = 0 then some [s1 * 4 + s2 / 16] else none
  | [s1, s2, s3] =>
      if s3 % 4 = 0 then some [s1 * 4 + s2 / 16, s2 % 16 * 16 + s3 / 4]
      else none
  | s1 :: s2 :: s3 :: s4 :: rest =>
      (sextetsToBytes rest).map
        (fun bs => (s1 * 4 + s2 / 16) :: (s2 % 16 * 16 + s3 / 4) ::
          (s3 % 4 * 64 + s4) :: bs)

def charsToSextets : List Char → Option (List Nat)
  | [] => some []
  | c :: cs =>
      match charToSextet c, charsToSextets cs with
      | some s, some rest => some (s :: rest)
      | _, _ => none

def encodeB64 (bytes : List Nat) : String :=
  String.mk ((bytesToSextets bytes).map sextetToChar)

def decodeB64 (s : String) : Option (List Nat) :=
  match charsToSextets s.data with
  | none => none
  | some sextets => sextetsToBytes sextets

/-! ## ChaCha20-Poly1305 (RFC 8439), the AEAD used by the
`chacha20poly1305` crate.  Words are `Nat` values reduced mod `2 ^ 32`. -/

def add32 (a b : Nat) : Nat := (a + b) % 4294967296

def rotl32 (x n : Nat) : Nat :=
  ((x <<< n) % 4294967296) ||| (x >>> (32 - n))

def quarterRound : Nat × Nat × Nat × Nat → Nat × Nat × Nat × Nat :=
  fun (a, b, c, d) =>
    let a := add32 a b
    let d := rotl32 (Nat.xor d a) 16
    let c := add32 c d
    let b := rotl32 (Nat.xor b c) 12
    let a := add32 a b
    let d := rotl32 (Nat.xor d a) 8
    let c := add32 c d
    let b := rotl32 (Nat.xor b c) 7
    (a, b, c, d)

/-- One double round: the four column quarter-rounds followed by the four
diagonal quarter-rounds.  States that are not 16 words long are returned
unchanged (the AEAD only ever builds 16-word states). -/
def doubleRound : List Nat → List Nat
  | [x0, x1, x2, x3, x4, x5, x6, x7, x8, x9, x10, x11, x12, x13, x14, x15] =>
      let (x0, x4, x8, x12) := quarterRound (x0, x4, x8, x12)
      let (x1, x5, x9, x13) := quarterRound (x1, x5, x9, x13)
      let (x2, x6, x10, x14) := quarterRound (x2, x6, x10, x14)
      let (x3, x7, x11, x15) := quarterRound (x3, x7, x11, x15)
      let (x0, x5, x10, x15) := quarterRound (x0, x5, x10, x15)
      let (x1, x6, x11, x12) := quarterRound (x1, x6, x11, x12)
      let (x2, x7, x8, x13) := quarterRound (x2, x7, x8, x13)
      let (x3, x4, x9, x14) := quarterRound (x3, x4, x9, x14)
      [x0, x1, x2, x3, x4, x5, x6, x7, x8, x9, x10, x11, x12, x13, x14, x15]
  | s => s

def chachaCore (s : List Nat) : List Nat := doubleRound^[10] s

def le32 (b0 b1 b2 b3 : Nat) : Nat :=
  b0 + 256 * b1 + 65536 * b2 + 16777216 * b3

def bytesToWordsLE : List Nat → List Nat
  | b0 :: b1 :: b2 :: b3 :: rest => le32 b0 b1 b2 b3 :: bytesToWordsLE rest
  | _ => []

/-- Little-endian serialization of `n` into `k` bytes. -/
def natToLEBytes : Nat → Nat → List Nat
  | 0, _ => []
  | k + 1, n => n % 256 :: natToLEBytes k (n / 256)

/-- A full 64-byte ChaCha20 block for the given key, counter and nonce. -/
def chachaBlock (key : List Nat) (counter : Nat) (nonce : List Nat) :
    List Nat :=
  let st := [1634760805, 857760878, 2036477234, 1797285236] ++
    bytesToWordsLE key ++ [counter] ++ bytesToWordsLE nonce
  let ws := chachaCore st
  ((List.zipWith add32 ws st).map (natToLEBytes 4)).flatten

/-- `n` consecutive keystream blocks starting at the given counter. -/
def chachaBlocks (key nonce : List Nat) : Nat → Nat → List Nat
  | 0, _ => []
  | n + 1, counter =>
      chachaBlock key counter nonce ++ chachaBlocks key nonce n (counter + 1)

/-- The encryption keystream: blocks from counter 1, truncated to `len`. -/
def keystreamFor (key nonce : List Nat) (len : Nat) : List Nat :=
  (chachaBlocks key nonce ((len + 63) / 64) 1).take len

def fromLEBytes : List Nat → Nat
  | [] => 0
  | b :: rest => b + 256 * fromLEBytes rest

def polyP : Nat := 2 ^ 130 - 5

def clampR (r : Nat) : Nat := r &&& 0x0ffffffc0ffffffc0ffffffc0fffffff

/-- Poly1305 accumulation over 16-byte chunks; a trailing partial chunk is
absorbed with its own high bit `2 ^ (8 * length)`. -/
def polyBlocks (r : Nat) (acc : Nat) : List Nat → Nat
  | [] => acc
  | b1 :: b2 :: b3 :: b4 :: b5 :: b6 :: b7 :: b8 ::
      b9 :: b10 :: b11 :: b12 :: b13 :: b14 :: b15 :: b16 :: rest =>
      polyBlocks r
        ((acc + (fromLEBytes
          [b1, b2, b3, b4, b5, b6, b7, b8,
            b9, b10, b11, b12, b13, b14, b15, b16] + 2 ^ 128)) * r % polyP)
        rest
  | msg => (acc + (fromLEBytes msg + 2 ^ (8 * msg.length))) * r % polyP

def poly1305Tag (polyKey msg : List Nat) : List Nat :=
  let r := clampR (fromLEBytes (polyKey.take 16))
  let s := fromLEBytes ((polyKey.drop 16).take 16)
  natToLEBytes 16 ((polyBlocks r 0 msg + s) % 2 ^ 128)

def pad16Len (n : Nat) : Nat := (16 - n % 16) % 16

/-- The Poly1305 message authenticated by the AEAD: empty associated data,
the ciphertext padded to 16 bytes, then the two 8-byte little-endian
lengths. -/
def macData (ct : List Nat) : List Nat :=
  ct ++ List.replicate (pad16Len ct.length) 0 ++ natToLEBytes 8 0 ++
    natToLEBytes 8 ct.length

/-- The 16-byte authentication tag: Poly1305 under the one-time key taken
from the first 32 bytes of ChaCha20 block 0. -/
def aeadTag (key nonce ct : List Nat) : List Nat :=
  poly1305Tag ((chachaBlock key 0 nonce).take 32) (macData ct)

/-- `ChaCha20Poly1305::encrypt`: ciphertext followed by the 16-byte tag. -/
def aeadEncrypt (key nonce p : List Nat) : List Nat :=
  let ct := List.zipWith Nat.xor p (keystreamFor key nonce p.length)
  ct ++ aeadTag key nonce ct

/-- `ChaCha20Poly1305::decrypt` on a combined ciphertext-and-tag buffer:
split the final 16 bytes off as the tag, recompute the tag over the
remaining ciphertext, and release plaintext only when they agree. -/
def aeadDecrypt (key nonce combined : List Nat) : Option (List Nat) :=
  if combined.length < 16 then none
  else
    let tag := combined.drop (combined.length - 16)
    let ct := combined.take (combined.length - 16)
    if aeadTag key nonce ct = tag then
      some (List.zipWith Nat.xor ct (keystreamFor key nonce ct.length))
    else none

/-- The ciphertext bytes `encrypt_secret` produces for a given key, nonce
and plaintext. -/
def ctBytes (key nonce p : List Nat) : List Nat :=
  List.zipWith Nat.xor p (keystreamFor key nonce p.length)

/-! ## `crypto/secrets.rs`: the secret vault.

Effects are explicit parameters: `env` models `std::env::var`, `fsRead`
models `fs::read_to_string`, `argonCore` models the external Argon2id
primitive of `derive_from_passphrase` (its only failure is surfaced as a
message string), and `encrypt_secret` takes the `OsRng` nonce as an
argument. -/

inductive SecretVaultError where
  | InvalidKeyLength : SecretVaultError
  | DerivationFailed : String → SecretVaultError
  | EncryptionFailed : String → SecretVaultError
  | DecryptionFailed : String → SecretVaultError
  | KeySourceUnreadable : String → SecretVaultError
  | Base64DecodeFailed : String → SecretVaultError
  deriving DecidableEq

/-- The `Display` strings of `SecretVaultError` (`thiserror` attributes),
without the interpolated cause. -/
def SecretVaultError.render : SecretVaultError → String
  | .InvalidKeyLength => "invalid key length; expected 32 bytes"
  | .DerivationFailed e => "argon2 derivation failed: " ++ e
  | .EncryptionFailed e => "encryption failed: " ++ e
  | .DecryptionFailed e => "decryption failed: " ++ e
  | .KeySourceUnreadable e => "key source unreadable: " ++ e
  | .Base64DecodeFailed e => "base64 decoding failed: " ++ e

/-- Serializable envelope for encrypted data; all three fields base64. -/
structure EncryptedSecret where
  nonce : String
  ciphertext : String
  tag : String
  deriving DecidableEq

/-- The vault owns the 32 symmetric key bytes. -/
structure SecretVault where
  key : List Nat
  deriving DecidableEq

/-- `SecretVault::from_key_bytes`: the key must be exactly 32 bytes. -/
def SecretVault.from_key_bytes (key_bytes : List Nat) :
    Except SecretVaultError SecretVault :=
  if key_bytes.length ≠ 32 then .error .InvalidKeyLength
  else .ok ⟨key_bytes⟩

/-- `SecretVault::from_env_var`: read and base64-decode a key from the
environment. -/
def SecretVault.from_env_var (env : String → Option String) (var : String) :
    Except SecretVaultError SecretVault :=
  match env var with
  | none => .error (.KeySourceUnreadable "environment variable not found")
  | some encoded =>
      match decodeB64 encoded with
      | none => .error (.Base64DecodeFailed "invalid base64")
      | some decoded => SecretVault.from_key_bytes decoded

/-- `SecretVault::from_key_file`: read a file, trim whitespace,
base64-decode. -/
def SecretVault.from_key_file (fsRead : String → Option String)
    (path : String) : Except SecretVaultError SecretVault :=
  match fsRead path with
  | none => .error (.KeySourceUnreadable "no such file or directory")
  | some content =>
      match decodeB64 content.trim with
      | none => .error (.Base64DecodeFailed "invalid base64")
      | some decoded => SecretVault.from_key_bytes decoded

/-- `SecretVault::derive_from_passphrase`: Argon2id (19 MiB, 3 passes,
parallelism 1) with a 32-byte output; `Params::new` with those constants
cannot fail, and the primitive itself is the `argonCore` parameter whose
error becomes `DerivationFailed`.  The `output.zeroize()` after the copy
has no observable effect in a pure embedding. -/
def SecretVault.derive_from_passphrase
    (argonCore : String → List Nat → Except String (List Nat))
    (passphrase : String) (salt : List Nat) :
    Except SecretVaultError SecretVault :=
  match argonCore passphrase salt with
  | .error e => .error (.DerivationFailed e)
  | .ok output => SecretVault.from_key_bytes output

/-- `SecretVault::encrypt_secret`, with the freshly generated 12-byte
`OsRng` nonce passed explicitly. -/
def SecretVault.encrypt_secret (v : SecretVault) (nonceBytes p : List Nat) :
    Except SecretVaultError EncryptedSecret :=
  let ciphertext_and_tag := aeadEncrypt v.key nonceBytes p
  if ciphertext_and_tag.length < 16 then
    .error (.EncryptionFailed "ciphertext shorter than authentication tag")
  else
    let tag_start := ciphertext_and_tag.length - 16
    let tag_bytes := ciphertext_and_tag.drop tag_start
    let ciphertext := ciphertext_and_tag.take tag_start
    .ok ⟨encodeB64 nonceBytes, encodeB64 ciphertext, encodeB64 tag_bytes⟩

/-- `SecretVault::decrypt_secret`: base64-decode the three fields, check
the nonce length, reassemble ciphertext and tag, AEAD-decrypt. -/
def SecretVault.decrypt_secret (v : SecretVault) (secret : EncryptedSecret) :
    Except SecretVaultError (List Nat) :=
  match decodeB64 secret.nonce with
  | none => .error (.Base64DecodeFailed "invalid base64 in nonce")
  | some nonce_bytes =>
  match decodeB64 secret.ciphertext with
  | none => .error (.Base64DecodeFailed "invalid base64 in ciphertext")
  | some ciphertext =>
  match decodeB64 secret.tag with
  | none => .error (.Base64DecodeFailed "invalid base64 in tag")
  | some tag =>
  if nonce_bytes.length ≠ 12 then
    .error (.DecryptionFailed "nonce length mismatch")
  else
    match aeadDecrypt v.key nonce_bytes (ciphertext ++ tag) with
    | none => .error (.DecryptionFailed "aead::Error")
    | some plaintext => .ok plaintext

/-! ## `crypto/integrity.rs`: HMAC and HKDF, parameterized by the SHA-256
compression (`h`), whose internals none of the claims depend on. -/

inductive IntegrityError where
  | HkdfFailed : String → IntegrityError
  | HmacFailed : String → IntegrityError
  deriving DecidableEq

/-- HMAC with a 64-byte block: hash long keys, zero-pad, inner and outer
hashing with the `0x36`/`0x5c` pads. -/
def hmacM (h : List Nat → List Nat) (key msg : List Nat) : List Nat :=
  let k0 := if 64 < key.length then h key else key
  let k0p := k0 ++ List.replicate (64 - k0.length) 0
  h ((k0p.map (Nat.xor 92)) ++ h ((k0p.map (Nat.xor 54)) ++ msg))

/-- `hmac_sha256`: `Hmac::new_from_slice` accepts keys of any length, so
the `HmacFailed` arm is unreachable. -/
def hmac_sha256 (h : List Nat → List Nat) (key data : List Nat) :
    Except IntegrityError (List Nat) :=
  .ok (hmacM h key data)

/-- The HKDF-Expand block sequence `T(1), T(2), …`, concatenated:
`T(i) = HMAC(prk, T(i-1) ‖ info ‖ i)`. -/
def hkdfTAux (h : List Nat → List Nat) (prk info : List Nat) :
    List Nat → Nat → Nat → List Nat
  | _, _, 0 => []
  | prev, i, n + 1 =>
      let t := hmacM h prk (prev ++ info ++ [i])
      t ++ hkdfTAux h prk info t (i + 1) n

/-- `hkdf_expand`: HKDF-SHA256 extract-then-expand.  The `hkdf` crate
fails exactly when the requested length exceeds `255 * 32` bytes. -/
def hkdf_expand (h : List Nat → List Nat)
    (input_key_material salt info : List Nat) (length : Nat) :
    Except IntegrityError (List Nat) :=
  if 255 * 32 < length then
    .error (.HkdfFailed "invalid number of blocks, too large output")
  else
    let prk := hmacM h salt input_key_material
    .ok ((hkdfTAux h prk info [] 1 ((length + 31) / 32)).take length)

/-! ## `crypto/passwords.rs`: Argon2id password hashing in PHC string
format.  The external Argon2id primitive is the parameter `argonPhc`
(password and salt to a hash value below `2 ^ 256`, rendered as 32
bytes); `hash_password` takes the `OsRng` salt explicitly. -/

/-- Drop an expected literal from the front of a character list. -/
def dropLiteral : List Char → List Char → Option (List Char)
  | [], s => some s
  | _ :: _, [] => none
  | c :: cs, x :: xs => if x = c then dropLiteral cs xs else none

/-- Split at the first `'$'`, keeping it on the right. -/
def breakDollar : List Char → List Char × List Char
  | [] => ([], [])
  | c :: cs =>
      if c = '$' then ([], c :: cs)
      else
        let p := breakDollar cs
        (c :: p.1, p.2)

def phcParams : String := "$argon2id$v=19$m=19456,t=3,p=1$"

/-- Render a PHC record with the fixed parameters of `argon2_config`. -/
def phcRender (salt hash : List Nat) : String :=
  phcParams ++ encodeB64 salt ++ "$" ++ encodeB64 hash

/-- Parse a PHC record: the fixed parameter header, then base64 salt,
`'$'`, base64 hash (`PasswordHash::new` of the `password_hash` crate,
restricted to the single parameter set this module ever produces). -/
def phcParse (s : String) : Option (List Nat × List Nat) :=
  match dropLiteral phcParams.data s.data with
  | none => none
  | some rest =>
      match breakDollar rest with
      | (saltChars, rest2) =>
          match rest2 with
          | [] => none
          | c :: hashChars =>
              if c = '$' then
                match charsToSextets saltChars, charsToSextets hashChars with
                | some ss, some hsx =>
                    match sextetsToBytes ss, sextetsToBytes hsx with
                    | some salt, some hash => some (salt, hash)
                    | _, _ => none
                | _, _ => none
              else none

/-- `hash_password`: run Argon2id on the password with a fresh salt and
the centralized parameters, and render the PHC record.  (`Params::new`
with the fixed constants cannot fail, so the `Result` is always `Ok`.) -/
def hash_password (argonPhc : String → List Nat → Nat)
    (salt : List Nat) (plaintext : String) : String :=
  phcRender salt (natToLEBytes 32 (argonPhc plaintext salt))

/-- `verify_password`: reparse the record, recompute the hash over the
embedded salt, compare; `false` on any parse failure, never an error. -/
def verify_password (argonPhc : String → List Nat → Nat)
    (plaintext stored_hash : String) : Bool :=
  match phcParse stored_hash with
  | none => false
  | some (salt, hash) =>
      decide (natToLEBytes 32 (argonPhc plaintext salt) = hash)

/-! ## `config.rs`: the configuration pipeline. -/

inductive ConfigError where
  | Io : String → ConfigError
  | Parse : String → ConfigError
  | Vault : String → ConfigError
  | MissingKeySource : ConfigError
  | Utf8 : String → ConfigError
  deriving DecidableEq

structure VaultConfig where
  key_env : Option String
  key_path : Option String
  passphrase_env : Option String
  salt_b64 : Option String
  deriving DecidableEq

structure EncryptedSecrets where
  token : EncryptedSecret
  application_id : Option EncryptedSecret
  deriving DecidableEq

structure RawSquireConfig where
  vault : VaultConfig
  encrypted_secrets : EncryptedSecrets
  logging_server_id : Option String
  debug_level : Option String
  deriving DecidableEq

structure RuntimeConfig where
  token : String
  application_id : Option String
  logging_server_id : Option String
  debug_level : Option String
  deriving DecidableEq

/-- `VaultConfig::build_vault`: try `key_env`, then `key_path`, then the
`passphrase_env`/`salt_b64` pair, in that order; `MissingKeySource` when
none matches.  Vault failures are wrapped as `ConfigError::Vault` with the
rendered message. -/
def VaultConfig.build_vault (env fsRead : String → Option String)
    (argonCore : String → List Nat → Except String (List Nat))
    (cfg : VaultConfig) : Except ConfigError SecretVault :=
  match cfg.key_env with
  | some var =>
      (SecretVault.from_env_var env var).mapError
        (fun e => ConfigError.Vault e.render)
  | none =>
  match cfg.key_path with
  | some path =>
      (SecretVault.from_key_file fsRead path).mapError
        (fun e => ConfigError.Vault e.render)
  | none =>
  match cfg.passphrase_env, cfg.salt_b64 with
  | some pass_env, some salt_b64 =>
      match env pass_env with
      | none => .error (.Vault "environment variable not found")
      | some passphrase =>
          match decodeB64 salt_b64 with
          | none => .error (.Vault "invalid base64")
          | some salt =>
              (SecretVault.derive_from_passphrase argonCore passphrase
                salt).mapError (fun e => ConfigError.Vault e.render)
  | _, _ => .error .MissingKeySource

/-- UTF-8 validation and decoding of `String::from_utf8`: multi-byte
sequences need the right leading byte, continuation bytes, and no
overlong or surrogate encodings. -/
def utf8DecodeChars : List Nat → Option (List Char)
  | [] => some []
  | b1 :: rest =>
      if b1 < 128 then
        (utf8DecodeChars rest).map (fun cs => Char.ofNat b1 :: cs)
      else
        match rest with
        | [] => none
        | b2 :: rest2 =>
            if 194 ≤ b1 ∧ b1 ≤ 223 ∧ 128 ≤ b2 ∧ b2 < 192 then
              (utf8DecodeChars rest2).map
                (fun cs => Char.ofNat ((b1 - 192) * 64 + (b2 - 128)) :: cs)
            else
              match rest2 with
              | [] => none
              | b3 :: rest3 =>
                  if 224 ≤ b1 ∧ b1 ≤ 239 ∧ 128 ≤ b2 ∧ b2 < 192 ∧
                      128 ≤ b3 ∧ b3 < 192 ∧
                      (b1 = 224 → 160 ≤ b2) ∧ (b1 = 237 → b2 < 160) then
                    (utf8DecodeChars rest3).map
                      (fun cs => Char.ofNat ((b1 - 224) * 4096 +
                        (b2 - 128) * 64 + (b3 - 128)) :: cs)
                  else
                    match rest3 with
                    | [] => none
                    | b4 :: rest4 =>
                        if 240 ≤ b1 ∧ b1 ≤ 244 ∧ 128 ≤ b2 ∧ b2 < 192 ∧
                            128 ≤ b3 ∧ b3 < 192 ∧ 128 ≤ b4 ∧ b4 < 192 ∧
                            (b1 = 240 → 144 ≤ b2) ∧ (b1 = 244 → b2 < 144) then
                          (utf8DecodeChars rest4).map
                            (fun cs => Char.ofNat ((b1 - 240) * 262144 +
                              (b2 - 128) * 4096 + (b3 - 128) * 64 +
                              (b4 - 128)) :: cs)
                        else none

def utf8Decode (bytes : List Nat) : Option String :=
  (utf8DecodeChars bytes).map String.mk

/-- `load_config`: read the file, parse the document, build the vault,
decrypt the token and the optional application id, compose the runtime
configuration.  `readFile` models `fs::read_to_string` and `parseCfg`
models `serde_json::from_str`. -/
def load_config (readFile : String → Option String)
    (parseCfg : String → Option RawSquireConfig)
    (env fsRead : String → Option String)
    (argonCore : String → List Nat → Except String (List Nat))
    (path : String) : Except ConfigError RuntimeConfig :=
  match readFile path with
  | none => .error (.Io "config file unreadable")
  | some raw_json =>
  match parseCfg raw_json with
  | none => .error (.Parse "config parse failed")
  | some raw_config =>
  match raw_config.vault.build_vault env fsRead argonCore with
  | .error e => .error e
  | .ok vault =>
  match vault.decrypt_secret raw_config.encrypted_secrets.token with
  | .error e => .error (.Vault e.render)
  | .ok token_bytes =>
  match utf8Decode token_bytes with
  | none => .error (.Utf8 "invalid utf-8 sequence")
  | some token =>
  match raw_config.encrypted_secrets.application_id with
  | none =>
      .ok ⟨token, none, raw_config.logging_server_id,
        raw_config.debug_level⟩
  | some enc_app =>
  match vault.decrypt_secret enc_app with
  | .error e => .error (.Vault e.render)
  | .ok decrypted =>
  match utf8Decode decrypted with
  | none => .error (.Utf8 "invalid utf-8 sequence")
  | some app =>
      .ok ⟨token, some app, raw_config.logging_server_id,
        raw_config.debug_level⟩

/-! ## Theorems -/

theorem charToSextet_sextetToChar :
    ∀ s : Fin 64, charToSextet (sextetToChar s.val) = some s.val := by
  decide

theorem bytesToSextets_lt (bytes : List Nat) (hb : ∀ b ∈ bytes, b < 256) :
    ∀ s ∈ bytesToSextets bytes, s < 64 := by
  induction bytes using bytesToSextets.induct with
  | case1 => simp [bytesToSextets]
  | case2 a =>
      have ha := hb a (by simp)
      intro s hs
      simp only [bytesToSextets, List.mem_cons, List.not_mem_nil,
        or_false] at hs
      rcases hs with rfl | rfl <;> omega
  | case3 a b =>
      have ha := hb a (by simp)
      have hb2 := hb b (by simp)
      intro s hs
      simp only [bytesToSextets, List.mem_cons, List.not_mem_nil,
        or_false] at hs
      rcases hs with rfl | rfl | rfl <;> omega
  | case4 a b c rest ih =>
      have ha := hb a (by simp)
      have hb2 := hb b (by simp)
      have hc := hb c (by simp)
      have hrest : ∀ x ∈ rest, x < 256 := fun x hx => hb x (by simp [hx])
      intro s hs
      simp only [bytesToSextets, List.mem_cons] at hs
      rcases hs with rfl | rfl | rfl | rfl | hs
      · omega
      · omega
      · omega
      · omega
      · exact ih hrest s hs

theorem sextetsToBytes_bytesToSextets (bytes : List Nat)
    (hb : ∀ b ∈ bytes, b < 256) :
    sextetsToBytes (bytesToSextets bytes) = some bytes := by
  induction bytes using bytesToSextets.induct with
  | case1 => rfl
  | case2 a =>
      have ha := hb a (by simp)
      simp only [bytesToSextets, sextetsToBytes]
      rw [if_pos (by omega : a % 4 * 16 % 16 = 0)]
      simp only [Option.some.injEq, List.cons.injEq, and_true]
      omega
  | case3 a b =>
      have ha := hb a (by simp)
      have hb2 := hb b (by simp)
      simp only [bytesToSextets, sextetsToBytes]
      rw [if_pos (by omega : b % 16 * 4 % 4 = 0)]
      simp only [Option.some.injEq, List.cons.injEq, and_true]
      omega
  | case4 a b c rest ih =>
      have ha := hb a (by simp)
      have hb2 := hb b (by simp)
      have hc := hb c (by simp)
      have hrest : ∀ x ∈ rest, x < 256 := fun x hx => hb x (by simp [hx])
      simp only [bytesToSextets, sextetsToBytes]
      rw [ih hrest]
      simp only [Option.map_some', Option.some.injEq, List.cons.injEq,
        and_true]
      omega

theorem charsToSextets_map_sextetToChar (sextets : List Nat)
    (hs : ∀ s ∈ sextets, s < 64) :
    charsToSextets (sextets.map sextetToChar) = some sextets := by
  induction sextets with
  | nil => rfl
  | cons s rest ih =>
      have h1 : s < 64 := hs s (by simp)
      have h2 := ih (fun x hx => hs x (by simp [hx]))
      simp only [List.map_cons, charsToSextets]
      rw [charToSextet_sextetToChar ⟨s, h1⟩, h2]

/-- Round-trip of the base64 model: decoding an encoding returns the
original bytes whenever they are genuine bytes. -/
theorem decodeB64_encodeB64 (bytes : List Nat) (hb : ∀ b ∈ bytes, b < 256) :
    decodeB64 (encodeB64 bytes) = some bytes := by
  unfold decodeB64 encodeB64
  rw [show (String.mk ((bytesToSextets bytes).map sextetToChar)).data
        = (bytesToSextets bytes).map sextetToChar from rfl]
  rw [charsToSextets_map_sextetToChar _ (bytesToSextets_lt bytes hb)]
  exact sextetsToBytes_bytesToSextets bytes hb

theorem natToLEBytes_length : ∀ k n, (natToLEBytes k n).length = k := by
  intro k
  induction k with
  | zero => intro n; rfl
  | succ k ih => intro n; simp [natToLEBytes, ih]

theorem natToLEBytes_lt : ∀ k n, ∀ b ∈ natToLEBytes k n, b < 256 := by
  intro k
  induction k with
  | zero => intro n b hb; simp [natToLEBytes] at hb
  | succ k ih =>
      intro n b hb
      simp only [natToLEBytes, List.mem_cons] at hb
      rcases hb with rfl | hb
      · omega
      · exact ih _ b hb

theorem doubleRound_length (l : List Nat) :
    (doubleRound l).length = l.length := by
  unfold doubleRound
  split
  · rfl
  · rfl

theorem chachaCore_length (l : List Nat) :
    (chachaCore l).length = l.length := by
  unfold chachaCore
  induction 10 with
  | zero => rfl
  | succ n ih =>
      rw [Function.iterate_succ_apply', doubleRound_length, ih]

theorem bytesToWordsLE_length :
    ∀ l : List Nat, (bytesToWordsLE l).length = l.length / 4 := by
  intro l
  induction l using bytesToWordsLE.induct with
  | case1 b0 b1 b2 b3 rest ih =>
      simp only [bytesToWordsLE, List.length_cons, ih]
      omega
  | case2 l h =>
      match l, h with
      | [], _ => rfl
      | [_], _ => simp [bytesToWordsLE]
      | [_, _], _ => simp [bytesToWordsLE]
      | [_, _, _], _ => simp [bytesToWordsLE]
      | b0 :: b1 :: b2 :: b3 :: rest, h =>
          exact (h b0 b1 b2 b3 rest rfl).elim

theorem flattenLE4_length (l : List Nat) :
    ((l.map (natToLEBytes 4)).flatten).length = 4 * l.length := by
  induction l with
  | nil => rfl
  | cons w rest ih =>
      simp only [List.map_cons, List.flatten_cons, List.length_append, ih,
        natToLEBytes_length, List.length_cons]
      omega

theorem flattenLE4_lt (l : List Nat) :
    ∀ b ∈ (l.map (natToLEBytes 4)).flatten, b < 256 := by
  induction l with
  | nil => intro b hb; simp at hb
  | cons w rest ih =>
      intro b hb
      simp only [List.map_cons, List.flatten_cons, List.mem_append] at hb
      rcases hb with hb | hb
      · exact natToLEBytes_lt 4 _ b hb
      · exact ih b hb

theorem chachaBlock_length (key nonce : List Nat) (counter : Nat)
    (hk : key.length = 32) (hn : nonce.length = 12) :
    (chachaBlock key counter nonce).length = 64 := by
  unfold chachaBlock
  rw [flattenLE4_length, List.length_zipWith, chachaCore_length]
  simp [bytesToWordsLE_length, hk, hn]

theorem chachaBlock_lt (key nonce : List Nat) (counter : Nat) :
    ∀ b ∈ chachaBlock key counter nonce, b < 256 := by
  unfold chachaBlock
  exact flattenLE4_lt _

theorem chachaBlocks_length (key nonce : List Nat)
    (hk : key.length = 32) (hn : nonce.length = 12) :
    ∀ n counter, (chachaBlocks key nonce n counter).length = 64 * n := by
  intro n
  induction n with
  | zero => intro counter; rfl
  | succ n ih =>
      intro counter
      simp only [chachaBlocks, List.length_append, ih,
        chachaBlock_length key nonce counter hk hn]
      omega

theorem chachaBlocks_lt (key nonce : List Nat) :
    ∀ n counter, ∀ b ∈ chachaBlocks key nonce n counter, b < 256 := by
  intro n
  induction n with
  | zero => intro counter b hb; simp [chachaBlocks] at hb
  | succ n ih =>
      intro counter b hb
      simp only [chachaBlocks, List.mem_append] at hb
      rcases hb with hb | hb
      · exact chachaBlock_lt key nonce counter b hb
      · exact ih _ b hb

theorem keystreamFor_length (key nonce : List Nat) (len : Nat)
    (hk : key.length = 32) (hn : nonce.length = 12) :
    (keystreamFor key nonce len).length = len := by
  unfold keystreamFor
  rw [List.length_take, chachaBlocks_length key nonce hk hn]
  omega

theorem keystreamFor_lt (key nonce : List Nat) (len : Nat) :
    ∀ b ∈ keystreamFor key nonce len, b < 256 := by
  intro b hb
  exact chachaBlocks_lt key nonce _ _ b (List.mem_of_mem_take hb)

theorem zipWith_xor_lt (p ks : List Nat) (hp : ∀ b ∈ p, b < 256)
    (hks : ∀ b ∈ ks, b < 256) :
    ∀ b ∈ List.zipWith Nat.xor p ks, b < 256 := by
  induction p generalizing ks with
  | nil => intro b hb; simp at hb
  | cons a p ih =>
      intro b hb
      cases ks with
      | nil => simp at hb
      | cons k ks =>
          simp only [List.zipWith_cons_cons, List.mem_cons] at hb
          rcases hb with rfl | hb
          · have h1 : a < 2 ^ 8 := hp a (by simp)
            have h2 : k < 2 ^ 8 := hks k (by simp)
            exact Nat.xor_lt_two_pow h1 h2
          · exact ih ks (fun x hx => hp x (List.mem_cons_of_mem _ hx))
              (fun x hx => hks x (List.mem_cons_of_mem _ hx)) b hb

theorem zipWith_xor_cancel (p ks : List Nat) (h : p.length ≤ ks.length) :
    List.zipWith Nat.xor (List.zipWith Nat.xor p ks) ks = p := by
  induction p generalizing ks with
  | nil => simp
  | cons a p ih =>
      cases ks with
      | nil => simp at h
      | cons k ks =>
          simp only [List.zipWith_cons_cons, List.cons.injEq]
          refine ⟨Nat.xor_cancel_right k a, ih ks (by simpa using h)⟩

theorem aeadTag_length (key nonce ct : List Nat) :
    (aeadTag key nonce ct).length = 16 := by
  unfold aeadTag poly1305Tag
  exact natToLEBytes_length 16 _

theorem aeadTag_lt (key nonce ct : List Nat) :
    ∀ b ∈ aeadTag key nonce ct, b < 256 := by
  unfold aeadTag poly1305Tag
  exact natToLEBytes_lt 16 _

/-- Core inverse property of the embedded AEAD: decrypting the buffer
that `aeadEncrypt` produced, under the same key and nonce, returns the
plaintext. -/
theorem aeadDecrypt_aeadEncrypt (key nonce p : List Nat)
    (hk : key.length = 32) (hn : nonce.length = 12) :
    aeadDecrypt key nonce (aeadEncrypt key nonce p) = some p := by
  set ks := keystreamFor key nonce p.length with hks
  set ct := List.zipWith Nat.xor p ks with hct
  have hkslen : ks.length = p.length :=
    keystreamFor_length key nonce p.length hk hn
  have hctlen : ct.length = p.length := by
    rw [hct, List.length_zipWith, hkslen]
    omega
  have henc : aeadEncrypt key nonce p = ct ++ aeadTag key nonce ct := rfl
  rw [henc]
  unfold aeadDecrypt
  have hlen : (ct ++ aeadTag key nonce ct).length = p.length + 16 := by
    rw [List.length_append, aeadTag_length, hctlen]
  rw [if_neg (by omega)]
  have hsub : (ct ++ aeadTag key nonce ct).length - 16 = ct.length := by
    rw [hlen, hctlen]
    omega
  dsimp only
  rw [hsub, List.drop_left, List.take_left]
  rw [if_pos rfl]
  rw [hctlen, ← hks, hct]
  rw [zipWith_xor_cancel p ks (le_of_eq hkslen.symm)]

theorem from_key_bytes_ok (key : List Nat) (hk : key.length = 32) :
    SecretVault.from_key_bytes key = .ok ⟨key⟩ := by
  unfold SecretVault.from_key_bytes
  rw [if_neg (by omega)]

theorem ctBytes_length (key nonce p : List Nat)
    (hk : key.length = 32) (hn : nonce.length = 12) :
    (ctBytes key nonce p).length = p.length := by
  unfold ctBytes
  rw [List.length_zipWith, keystreamFor_length key nonce p.length hk hn]
  omega

theorem ctBytes_lt (key nonce p : List Nat) (hp : ∀ b ∈ p, b < 256) :
    ∀ b ∈ ctBytes key nonce p, b < 256 :=
  zipWith_xor_lt p _ hp (keystreamFor_lt key nonce p.length)

/-- What a successful `encrypt_secret` call returns, explicitly. -/
theorem encrypt_secret_eq (key nonce p : List Nat)
    (hk : key.length = 32) (hn : nonce.length = 12) :
    SecretVault.encrypt_secret ⟨key⟩ nonce p =
      .ok ⟨encodeB64 nonce, encodeB64 (ctBytes key nonce p),
        encodeB64 (aeadTag key nonce (ctBytes key nonce p))⟩ := by
  unfold SecretVault.encrypt_secret
  have henc : aeadEncrypt key nonce p =
      ctBytes key nonce p ++ aeadTag key nonce (ctBytes key nonce p) := rfl
  have hctlen := ctBytes_length key nonce p hk hn
  have hlen : (aeadEncrypt key nonce p).length = p.length + 16 := by
    rw [henc, List.length_append, aeadTag_length, hctlen]
  dsimp only
  rw [if_neg (by omega)]
  have hsub : (aeadEncrypt key nonce p).length - 16 =
      (ctBytes key nonce p).length := by
    rw [hlen, hctlen]
    omega
  rw [hsub, henc, List.drop_left, List.take_left]

/-- C1.  For every byte string `p` (including the empty string) and every
vault built by `from_key_bytes` from a 32-byte key, decrypting the
envelope produced by encrypting `p` (under the fresh 12-byte nonce that
`OsRng` supplied) returns exactly `p`:
`decrypt_secret (encrypt_secret p) = Ok p`. -/
theorem C1_encrypt_decrypt_round_trip (key nonce p : List Nat)
    (v : SecretVault) (e : EncryptedSecret)
    (hk : key.length = 32) (hn : nonce.length = 12)
    (hnb : ∀ b ∈ nonce, b < 256) (hp : ∀ b ∈ p, b < 256)
    (hv : SecretVault.from_key_bytes key = .ok v)
    (he : v.encrypt_secret nonce p = .ok e) :
    v.decrypt_secret e = .ok p := by
  rw [from_key_bytes_ok key hk] at hv
  cases hv
  rw [encrypt_secret_eq key nonce p hk hn] at he
  cases he
  unfold SecretVault.decrypt_secret
  rw [decodeB64_encodeB64 nonce hnb]
  rw [decodeB64_encodeB64 _ (ctBytes_lt key nonce p hp)]
  rw [decodeB64_encodeB64 _ (aeadTag_lt key nonce (ctBytes key nonce p))]
  dsimp only
  rw [if_neg (by omega)]
  have hcomb : ctBytes key nonce p ++ aeadTag key nonce (ctBytes key nonce p)
      = aeadEncrypt key nonce p := rfl
  rw [hcomb, aeadDecrypt_aeadEncrypt key nonce p hk hn]

/-- C4.  `from_key_bytes` fails with `InvalidKeyLength` for every input
whose length is not exactly 32 bytes, and succeeds (yielding the vault
holding those very bytes) for every input of exactly 32 bytes. -/
theorem C4_from_key_bytes_length (key_bytes : List Nat) :
    (key_bytes.length ≠ 32 →
      SecretVault.from_key_bytes key_bytes = .error .InvalidKeyLength) ∧
    (key_bytes.length = 32 →
      SecretVault.from_key_bytes key_bytes = .ok ⟨key_bytes⟩) := by
  constructor
  · intro h
    unfold SecretVault.from_key_bytes
    rw [if_pos h]
  · intro h
    exact from_key_bytes_ok key_bytes h

/-- Witness for C4 at the lengths the claim singles out: 16, 31 and 33
bytes are rejected with `InvalidKeyLength`, 32 bytes are accepted. -/
theorem C4_from_key_bytes_length_witness :
    SecretVault.from_key_bytes (List.replicate 16 1) =
      .error .InvalidKeyLength ∧
    SecretVault.from_key_bytes (List.replicate 31 1) =
      .error .InvalidKeyLength ∧
    SecretVault.from_key_bytes (List.replicate 33 1) =
      .error .InvalidKeyLength ∧
    SecretVault.from_key_bytes (List.replicate 32 1) =
      .ok ⟨List.replicate 32 1⟩ :=
  ⟨(C4_from_key_bytes_length _).1 (by decide),
    (C4_from_key_bytes_length _).1 (by decide),
    (C4_from_key_bytes_length _).1 (by decide),
    (C4_from_key_bytes_length _).2 (by decide)⟩

/-- C8.  Every envelope returned by a successful `encrypt_secret` call
satisfies the envelope invariants: the nonce field decodes (unpadded
base64) to exactly 12 bytes, the tag field to exactly 16 bytes, and the
ciphertext field to a byte string whose length equals the plaintext
length. -/
theorem C8_envelope_invariants (key nonce p : List Nat)
    (v : SecretVault) (e : EncryptedSecret)
    (hk : key.length = 32) (hn : nonce.length = 12)
    (hnb : ∀ b ∈ nonce, b < 256) (hp : ∀ b ∈ p, b < 256)
    (hv : SecretVault.from_key_bytes key = .ok v)
    (he : v.encrypt_secret nonce p = .ok e) :
    (∃ nb, decodeB64 e.nonce = some nb ∧ nb.length = 12) ∧
    (∃ tb, decodeB64 e.tag = some tb ∧ tb.length = 16) ∧
    (∃ cb, decodeB64 e.ciphertext = some cb ∧ cb.length = p.length) := by
  rw [from_key_bytes_ok key hk] at hv
  cases hv
  rw [encrypt_secret_eq key nonce p hk hn] at he
  cases he
  refine ⟨⟨nonce, decodeB64_encodeB64 nonce hnb, hn⟩,
    ⟨aeadTag key nonce (ctBytes key nonce p),
      decodeB64_encodeB64 _ (aeadTag_lt key nonce _),
      aeadTag_length key nonce _⟩,
    ⟨ctBytes key nonce p,
      decodeB64_encodeB64 _ (ctBytes_lt key nonce p hp),
      ctBytes_length key nonce p hk hn⟩⟩

/-- C10.  `decrypt_secret` never checks the decoded length of the tag
field: two envelopes with identical nonce fields whose decoded
ciphertext-and-tag concatenations coincide decrypt to the same result,
whatever the split between the two fields. -/
theorem C10_tag_split_irrelevant (v : SecretVault)
    (e1 e2 : EncryptedSecret) (ct1 tag1 ct2 tag2 : List Nat)
    (hn : e1.nonce = e2.nonce)
    (h1c : decodeB64 e1.ciphertext = some ct1)
    (h1t : decodeB64 e1.tag = some tag1)
    (h2c : decodeB64 e2.ciphertext = some ct2)
    (h2t : decodeB64 e2.tag = some tag2)
    (hcat : ct1 ++ tag1 = ct2 ++ tag2) :
    v.decrypt_secret e1 = v.decrypt_secret e2 := by
  unfold SecretVault.decrypt_secret
  rw [hn, h1c, h1t, h2c, h2t]
  dsimp only
  rw [hcat]

/-- C2 (amended).  Replacing the tag field of an envelope produced by
`encrypt_secret` with the encoding of any different 16-byte tag — in
particular, flipping any single bit of the decoded tag — makes
`decrypt_secret` fail with the opaque `DecryptionFailed` condition and
return no plaintext. -/
theorem C2_tag_tamper_decryption_failed (key nonce p tagAlt : List Nat)
    (v : SecretVault) (e : EncryptedSecret)
    (hk : key.length = 32) (hn : nonce.length = 12)
    (hnb : ∀ b ∈ nonce, b < 256) (hp : ∀ b ∈ p, b < 256)
    (htlen : tagAlt.length = 16) (htb : ∀ b ∈ tagAlt, b < 256)
    (hv : SecretVault.from_key_bytes key = .ok v)
    (he : v.encrypt_secret nonce p = .ok e)
    (hne : encodeB64 tagAlt ≠ e.tag) :
    v.decrypt_secret
        ⟨e.nonce, e.ciphertext, encodeB64 tagAlt⟩ =
      .error (.DecryptionFailed "aead::Error") := by
  rw [from_key_bytes_ok key hk] at hv
  cases hv
  rw [encrypt_secret_eq key nonce p hk hn] at he
  cases he
  have htagne : aeadTag key nonce (ctBytes key nonce p) ≠ tagAlt := by
    intro hcontra
    exact hne (congrArg encodeB64 hcontra.symm)
  unfold SecretVault.decrypt_secret
  rw [decodeB64_encodeB64 nonce hnb]
  rw [decodeB64_encodeB64 _ (ctBytes_lt key nonce p hp)]
  rw [decodeB64_encodeB64 tagAlt htb]
  dsimp only
  rw [if_neg (by omega)]
  unfold aeadDecrypt
  have hctlen := ctBytes_length key nonce p hk hn
  have hclen : (ctBytes key nonce p ++ tagAlt).length = p.length + 16 := by
    rw [List.length_append, hctlen, htlen]
  rw [if_neg (by omega)]
  have hsub : (ctBytes key nonce p ++ tagAlt).length - 16 =
      (ctBytes key nonce p).length := by
    rw [hclen, hctlen]
    omega
  dsimp only
  rw [hsub, List.drop_left, List.take_left, if_neg htagne]

/-- C3.  `build_vault` tries the key sources in the fixed order
`key_env`, then `key_path`, then the `passphrase_env`/`salt_b64` pair,
with no validation that only one of them is set: a populated `key_env`
decides the vault regardless of the other fields, a populated `key_path`
decides it whenever `key_env` is absent, and the passphrase pair is used
only when both earlier sources are absent. -/
theorem C3_key_source_priority (env fsRead : String → Option String)
    (argonCore : String → List Nat → Except String (List Nat))
    (cfg : VaultConfig) :
    (∀ var, cfg.key_env = some var →
      cfg.build_vault env fsRead argonCore =
        (SecretVault.from_env_var env var).mapError
          (fun e => ConfigError.Vault e.render)) ∧
    (∀ path, cfg.key_env = none → cfg.key_path = some path →
      cfg.build_vault env fsRead argonCore =
        (SecretVault.from_key_file fsRead path).mapError
          (fun e => ConfigError.Vault e.render)) ∧
    (∀ pass_env salt_b64, cfg.key_env = none → cfg.key_path = none →
      cfg.passphrase_env = some pass_env → cfg.salt_b64 = some salt_b64 →
      cfg.build_vault env fsRead argonCore =
        match env pass_env with
        | none => .error (.Vault "environment variable not found")
        | some passphrase =>
            match decodeB64 salt_b64 with
            | none => .error (.Vault "invalid base64")
            | some salt =>
                (SecretVault.derive_from_passphrase argonCore passphrase
                  salt).mapError (fun e => ConfigError.Vault e.render)) := by
  refine ⟨?_, ?_, ?_⟩
  · intro var h
    unfold VaultConfig.build_vault
    rw [h]
  · intro path h1 h2
    unfold VaultConfig.build_vault
    rw [h1, h2]
  · intro pass_env salt_b64 h1 h2 h3 h4
    unfold VaultConfig.build_vault
    rw [h1, h2, h3, h4]

/-- Witness for C3: a document with all four key-source fields populated
resolves through `key_env` alone; with `key_env` absent it resolves
through `key_path`; with both absent, through the passphrase pair. -/
theorem C3_key_source_priority_witness :
    (VaultConfig.build_vault (fun _ => none) (fun _ => none)
        (fun _ _ => .error "unused")
        ⟨some "KV", some "KP", some "PE", some "SB"⟩ =
      (SecretVault.from_env_var (fun _ => none) "KV").mapError
        (fun e => ConfigError.Vault e.render)) ∧
    (VaultConfig.build_vault (fun _ => none) (fun _ => none)
        (fun _ _ => .error "unused")
        ⟨none, some "KP", some "PE", some "SB"⟩ =
      (SecretVault.from_key_file (fun _ => none) "KP").mapError
        (fun e => ConfigError.Vault e.render)) ∧
    (VaultConfig.build_vault (fun _ => none) (fun _ => none)
        (fun _ _ => .error "unused")
        ⟨none, none, some "PE", some "SB"⟩ =
      .error (.Vault "environment variable not found")) :=
  ⟨(C3_key_source_priority (fun _ => none) (fun _ => none)
      (fun _ _ => .error "unused")
      ⟨some "KV", some "KP", some "PE", some "SB"⟩).1 "KV" rfl,
    (C3_key_source_priority (fun _ => none) (fun _ => none)
      (fun _ _ => .error "unused")
      ⟨none, some "KP", some "PE", some "SB"⟩).2.1 "KP" rfl rfl,
    (C3_key_source_priority (fun _ => none) (fun _ => none)
      (fun _ _ => .error "unused")
      ⟨none, none, some "PE", some "SB"⟩).2.2 "PE" "SB" rfl rfl rfl rfl⟩

/-- C6.  When the vault section has no recognized key source — no
`key_env`, no `key_path`, and not both halves of the passphrase pair —
`load_config` fails with `MissingKeySource`; the result is the same for
every environment, file system, Argon2 core and encrypted-field content,
so the failure precedes any cryptographic operation. -/
theorem C6_missing_key_source (readFile : String → Option String)
    (parseCfg : String → Option RawSquireConfig)
    (env fsRead : String → Option String)
    (argonCore : String → List Nat → Except String (List Nat))
    (path raw : String) (doc : RawSquireConfig)
    (hr : readFile path = some raw) (hp : parseCfg raw = some doc)
    (h1 : doc.vault.key_env = none) (h2 : doc.vault.key_path = none)
    (h3 : doc.vault.passphrase_env = none ∨ doc.vault.salt_b64 = none) :
    load_config readFile parseCfg env fsRead argonCore path =
      .error .MissingKeySource := by
  have hbv : doc.vault.build_vault env fsRead argonCore =
      .error .MissingKeySource := by
    unfold VaultConfig.build_vault
    rw [h1, h2]
    rcases h3 with h3 | h3
    · rw [h3]
    · rw [h3]
      cases doc.vault.passphrase_env <;> rfl
  unfold load_config
  rw [hr]
  dsimp only
  rw [hp]
  dsimp only
  rw [hbv]

theorem hkdfTAux_length (h : List Nat → List Nat)
    (hh : ∀ m, (h m).length = 32) (prk info : List Nat) :
    ∀ n prev i, (hkdfTAux h prk info prev i n).length = 32 * n := by
  intro n
  induction n with
  | zero => intro prev i; rfl
  | succ n ih =>
      intro prev i
      simp only [hkdfTAux, List.length_append, ih]
      unfold hmacM
      rw [hh]
      omega

/-- C7.  `hkdf_expand` is deterministic (the same four inputs always
produce the same output), fails with the expansion-too-large condition
(`HkdfFailed`, the code's name for the spec's `ExpansionTooLarge`)
exactly when the requested length exceeds `255 * 32 = 8160` bytes, and
on success returns exactly `length` bytes.  The SHA-256 compression is
any function `h` producing 32-byte digests. -/
theorem C7_hkdf_expand_contract (h : List Nat → List Nat)
    (hh : ∀ m, (h m).length = 32)
    (input_key_material salt info : List Nat) (length : Nat) :
    (255 * 32 < length →
      hkdf_expand h input_key_material salt info length =
        .error (.HkdfFailed "invalid number of blocks, too large output")) ∧
    (length ≤ 255 * 32 →
      ∃ okm, hkdf_expand h input_key_material salt info length = .ok okm ∧
        okm.length = length) ∧
    (∀ ikm2 salt2 info2 len2, input_key_material = ikm2 → salt = salt2 →
      info = info2 → length = len2 →
      hkdf_expand h input_key_material salt info length =
        hkdf_expand h ikm2 salt2 info2 len2) := by
  refine ⟨?_, ?_, ?_⟩
  · intro hgt
    unfold hkdf_expand
    rw [if_pos hgt]
  · intro hle
    unfold hkdf_expand
    rw [if_neg (by omega)]
    refine ⟨_, rfl, ?_⟩
    rw [List.length_take, hkdfTAux_length h hh]
    omega
  · intro ikm2 salt2 info2 len2 e1 e2 e3 e4
    rw [e1, e2, e3, e4]

/-- Witness for C7 with a concrete 32-byte digest function: 8161 bytes
are refused, 33 bytes are produced exactly. -/
theorem C7_hkdf_expand_contract_witness :
    (hkdf_expand (fun _ => List.replicate 32 0) [1] [2] [3] 8161 =
      .error (.HkdfFailed "invalid number of blocks, too large output")) ∧
    (∃ okm, hkdf_expand (fun _ => List.replicate 32 0) [1] [2] [3] 33 =
      .ok okm ∧ okm.length = 33) :=
  ⟨(C7_hkdf_expand_contract (fun _ => List.replicate 32 0)
      (fun _ => List.length_replicate 32 0) [1] [2] [3] 8161).1
      (by omega),
    (C7_hkdf_expand_contract (fun _ => List.replicate 32 0)
      (fun _ => List.length_replicate 32 0) [1] [2] [3] 33).2.1
      (by omega)⟩

theorem dropLiteral_append :
    ∀ lit s : List Char, dropLiteral lit (lit ++ s) = some s := by
  intro lit
  induction lit with
  | nil => intro s; rfl
  | cons c cs ih =>
      intro s
      simp only [List.cons_append, dropLiteral, if_pos rfl]
      exact ih s

theorem breakDollar_no_dollar :
    ∀ a b : List Char, '$' ∉ a →
      breakDollar (a ++ '$' :: b) = (a, '$' :: b) := by
  intro a
  induction a with
  | nil => intro b _; rfl
  | cons c cs ih =>
      intro b hc
      have hcne : ¬ c = '$' := fun h => hc (by simp [h])
      simp only [List.cons_append, breakDollar, if_neg hcne, List.append_eq]
      rw [ih b (fun h => hc (List.mem_cons_of_mem _ h))]

theorem encodeB64_mem_alphabet (bytes : List Nat)
    (hb : ∀ b ∈ bytes, b < 256) :
    ∀ c ∈ (encodeB64 bytes).data, c ∈ b64Alphabet := by
  intro c hc
  have hdata : (encodeB64 bytes).data =
      (bytesToSextets bytes).map sextetToChar := rfl
  rw [hdata] at hc
  obtain ⟨s, hs, rfl⟩ := List.mem_map.mp hc
  have hslt : s < 64 := bytesToSextets_lt bytes hb s hs
  have hlen : s < b64Alphabet.length := by
    rw [show b64Alphabet.length = 64 from rfl]
    omega
  unfold sextetToChar
  rw [List.getD_eq_getElem b64Alphabet 'A' hlen]
  exact List.getElem_mem hlen

theorem dollar_not_in_alphabet : '$' ∉ b64Alphabet := by decide

/-- Parsing a rendered PHC record recovers the salt and hash bytes. -/
theorem phcParse_phcRender (salt hash : List Nat)
    (hs : ∀ b ∈ salt, b < 256) (hh : ∀ b ∈ hash, b < 256) :
    phcParse (phcRender salt hash) = some (salt, hash) := by
  unfold phcParse phcRender
  have hdata : (phcParams ++ encodeB64 salt ++ "$" ++ encodeB64 hash).data =
      phcParams.data ++
        ((encodeB64 salt).data ++ '$' :: (encodeB64 hash).data) := by
    rw [String.data_append, String.data_append, String.data_append]
    simp [List.append_assoc]
  rw [hdata, dropLiteral_append]
  dsimp only
  rw [breakDollar_no_dollar _ _
    (fun h => dollar_not_in_alphabet (encodeB64_mem_alphabet salt hs '$' h))]
  have hsalt : (encodeB64 salt).data =
      (bytesToSextets salt).map sextetToChar := rfl
  have hhash : (encodeB64 hash).data =
      (bytesToSextets hash).map sextetToChar := rfl
  rw [hsalt, hhash]
  dsimp only
  rw [if_pos rfl]
  rw [charsToSextets_map_sextetToChar _ (bytesToSextets_lt salt hs)]
  rw [charsToSextets_map_sextetToChar _ (bytesToSextets_lt hash hh)]
  dsimp only
  rw [sextetsToBytes_bytesToSextets salt hs,
    sextetsToBytes_bytesToSextets hash hh]

/-- C5 (counterexample).  The unconditional claim — for every hashing
core, `verify_password` rejects every string other than the hashed
password — is false: a core mapping two different passwords to the same
32-byte hash makes `verify_password` accept both.  (The claim as stated
quantifies over the behavior of the external Argon2 primitive, which is
the `argonPhc` parameter here; the constant core gives a concrete
violation, and `argon_collisions_unavoidable` below shows no core with
fixed-width output escapes it.) -/
theorem C5_counterexample :
    ¬ (∀ (argonPhc : String → List Nat → Nat) (salt : List Nat)
        (pw other : String), (∀ b ∈ salt, b < 256) →
        verify_password argonPhc pw
          (hash_password argonPhc salt pw) = true ∧
        (other ≠ pw →
          verify_password argonPhc other
            (hash_password argonPhc salt pw) = false) ∧
        verify_password argonPhc pw "not-a-valid-record" = false) := by
  intro hcl
  have h := (hcl (fun _ _ => 0) [1, 2, 3, 4, 5, 6, 7, 8]
    "pa55phrase" "wrong-password" (by decide)).2.1 (by decide)
  have h2 : verify_password (fun _ _ => 0) "wrong-password"
      (hash_password (fun _ _ => 0) [1, 2, 3, 4, 5, 6, 7, 8]
        "pa55phrase") = true := by decide
  rw [h] at h2
  cases h2

/-- Any hashing core with 256-bit output identifies two distinct
passwords (pigeonhole), so the unconditional "any other string is
rejected" can hold for no core at all. -/
theorem argon_collisions_unavoidable (f : String → Nat)
    (hf : ∀ s, f s < 2 ^ 256) :
    ∃ pw other : String, pw ≠ other ∧ f pw = f other := by
  obtain ⟨x, y, hne, heq⟩ :=
    Finite.exists_ne_map_eq_of_infinite
      (fun s : String => (⟨f s, hf s⟩ : Fin (2 ^ 256)))
  exact ⟨x, y, hne, congrArg Fin.val heq⟩

/-- C5 (amended).  `verify_password (pw, hash_password pw)` is `true` for
every password and salt; `verify_password (other, hash_password pw)` is
`false` for every other string whose derived 32-byte hash under the same
salt differs from `pw`'s (the most any fixed-width hash can guarantee);
and `verify_password` never throws: on the malformed record
`"not-a-valid-record"` it returns `false`. -/
theorem C5_password_verify (argonPhc : String → List Nat → Nat)
    (salt : List Nat) (pw other : String) (hs : ∀ b ∈ salt, b < 256) :
    verify_password argonPhc pw (hash_password argonPhc salt pw) = true ∧
    (natToLEBytes 32 (argonPhc other salt) ≠
        natToLEBytes 32 (argonPhc pw salt) →
      verify_password argonPhc other
        (hash_password argonPhc salt pw) = false) ∧
    verify_password argonPhc pw "not-a-valid-record" = false := by
  have hparse := phcParse_phcRender salt
    (natToLEBytes 32 (argonPhc pw salt)) hs
    (natToLEBytes_lt 32 (argonPhc pw salt))
  refine ⟨?_, ?_, ?_⟩
  · unfold verify_password hash_password
    rw [hparse]
    exact decide_eq_true rfl
  · intro hne
    unfold verify_password hash_password
    rw [hparse]
    exact decide_eq_false hne
  · rfl

/-- Witness for C5 (amended) with a concrete distinguishing core. -/
theorem C5_password_verify_witness :
    verify_password (fun s _ => s.length) "a"
      (hash_password (fun s _ => s.length) [1, 2, 3, 4, 5, 6, 7, 8] "a") =
        true ∧
    verify_password (fun s _ => s.length) "bb"
      (hash_password (fun s _ => s.length) [1, 2, 3, 4, 5, 6, 7, 8] "a") =
        false ∧
    verify_password (fun s _ => s.length) "a" "not-a-valid-record" =
      false := by
  obtain ⟨h1, h2, h3⟩ := C5_password_verify (fun s _ => s.length)
    [1, 2, 3, 4, 5, 6, 7, 8] "a" "bb" (by decide)
  exact ⟨h1, h2 (by decide), h3⟩

/-- Witness for C1 on a concrete key, nonce and plaintext. -/
theorem C1_encrypt_decrypt_round_trip_witness :
    SecretVault.decrypt_secret ⟨List.replicate 32 42⟩
        ⟨"BwcHBwcHBwcHBwcH", "rKni0k8", "Ip6I7TZDOVfFdOj49sWw1A"⟩ =
      .ok [1, 2, 3, 4, 5] :=
  C1_encrypt_decrypt_round_trip (List.replicate 32 42)
    (List.replicate 12 7) [1, 2, 3, 4, 5] ⟨List.replicate 32 42⟩
    ⟨"BwcHBwcHBwcHBwcH", "rKni0k8", "Ip6I7TZDOVfFdOj49sWw1A"⟩
    (by decide) (by decide) (by decide) (by decide) (by decide) (by decide)

/-- C2 (counterexample).  The envelope fields are base64 strings, and a
single bit flip inside the tag field can leave the base64 alphabet:
flipping bit 6 of the first tag byte turns `'I'` into a tab character,
and `decrypt_secret` then fails with `Base64DecodeFailed` — not with the
single opaque `DecryptionFailed` condition the claim requires for every
single-bit flip in the ciphertext or tag field. -/
theorem C2_counterexample :
    SecretVault.encrypt_secret ⟨List.replicate 32 42⟩ (List.replicate 12 7)
        [1, 2, 3, 4, 5] =
      .ok ⟨"BwcHBwcHBwcHBwcH", "rKni0k8", "Ip6I7TZDOVfFdOj49sWw1A"⟩ ∧
    Nat.xor (Char.toNat 'I') (Char.toNat '\t') = 2 ^ 6 ∧
    "\tp6I7TZDOVfFdOj49sWw1A".data =
      '\t' :: "Ip6I7TZDOVfFdOj49sWw1A".data.tail ∧
    SecretVault.decrypt_secret ⟨List.replicate 32 42⟩
        ⟨"BwcHBwcHBwcHBwcH", "rKni0k8", "\tp6I7TZDOVfFdOj49sWw1A"⟩ =
      .error (.Base64DecodeFailed "invalid base64 in tag") :=
  ⟨by decide, by decide, by decide, by decide⟩

/-- Witness for C2 (amended): flipping the lowest bit of the first
decoded tag byte (34 becomes 35) of the concrete envelope yields
`DecryptionFailed`. -/
theorem C2_tag_tamper_decryption_failed_witness :
    SecretVault.decrypt_secret ⟨List.replicate 32 42⟩
        ⟨"BwcHBwcHBwcHBwcH", "rKni0k8", "I56I7TZDOVfFdOj49sWw1A"⟩ =
      .error (.DecryptionFailed "aead::Error") :=
  C2_tag_tamper_decryption_failed (List.replicate 32 42)
    (List.replicate 12 7) [1, 2, 3, 4, 5]
    [35, 158, 136, 237, 54, 67, 57, 87, 197, 116, 232, 248, 246, 197,
      176, 212]
    ⟨List.replicate 32 42⟩
    ⟨"BwcHBwcHBwcHBwcH", "rKni0k8", "Ip6I7TZDOVfFdOj49sWw1A"⟩
    (by decide) (by decide) (by decide) (by decide) (by decide) (by decide)
    (by decide) (by decide) (by decide)

/-- Witness for C8 on the concrete envelope. -/
theorem C8_envelope_invariants_witness :
    (∃ nb, decodeB64 "BwcHBwcHBwcHBwcH" = some nb ∧ nb.length = 12) ∧
    (∃ tb, decodeB64 "Ip6I7TZDOVfFdOj49sWw1A" = some tb ∧
      tb.length = 16) ∧
    (∃ cb, decodeB64 "rKni0k8" = some cb ∧
      cb.length = [1, 2, 3, 4, 5].length) :=
  C8_envelope_invariants (List.replicate 32 42) (List.replicate 12 7)
    [1, 2, 3, 4, 5] ⟨List.replicate 32 42⟩
    ⟨"BwcHBwcHBwcHBwcH", "rKni0k8", "Ip6I7TZDOVfFdOj49sWw1A"⟩
    (by decide) (by decide) (by decide) (by decide) (by decide) (by decide)

/-- Witness for C10: moving the first decoded tag byte of the concrete
envelope into the ciphertext field (tag now 15 bytes) leaves the result
of `decrypt_secret` unchanged, and it still decrypts to the plaintext. -/
theorem C10_tag_split_irrelevant_witness :
    SecretVault.decrypt_secret ⟨List.replicate 32 42⟩
        ⟨"BwcHBwcHBwcHBwcH", "rKni0k8", "Ip6I7TZDOVfFdOj49sWw1A"⟩ =
      SecretVault.decrypt_secret ⟨List.replicate 32 42⟩
        ⟨"BwcHBwcHBwcHBwcH", "rKni0k8i", "nojtNkM5V8V06Pj2xbDU"⟩ ∧
    SecretVault.decrypt_secret ⟨List.replicate 32 42⟩
        ⟨"BwcHBwcHBwcHBwcH", "rKni0k8i", "nojtNkM5V8V06Pj2xbDU"⟩ =
      .ok [1, 2, 3, 4, 5] :=
  ⟨C10_tag_split_irrelevant ⟨List.replicate 32 42⟩
    ⟨"BwcHBwcHBwcHBwcH", "rKni0k8", "Ip6I7TZDOVfFdOj49sWw1A"⟩
    ⟨"BwcHBwcHBwcHBwcH", "rKni0k8i", "nojtNkM5V8V06Pj2xbDU"⟩
    [172, 169, 226, 210, 79]
    [34, 158, 136, 237, 54, 67, 57, 87, 197, 116, 232, 248, 246, 197,
      176, 212]
    [172, 169, 226, 210, 79, 34]
    [158, 136, 237, 54, 67, 57, 87, 197, 116, 232, 248, 246, 197, 176,
      212]
    (by decide) (by decide) (by decide) (by decide) (by decide)
    (by decide), by decide⟩

/-- Witness for C6: a parsed document whose vault section has no key
source (here a passphrase variable without its salt) fails with
`MissingKeySource`. -/
theorem C6_missing_key_source_witness :
    load_config (fun _ => some "raw")
      (fun _ => some ⟨⟨none, none, some "PE", none⟩, ⟨⟨"", "", ""⟩, none⟩,
        none, none⟩)
      (fun _ => none) (fun _ => none) (fun _ _ => .error "unused")
      "config.json" = .error .MissingKeySource :=
  C6_missing_key_source (fun _ => some "raw")
    (fun _ => some ⟨⟨none, none, some "PE", none⟩, ⟨⟨"", "", ""⟩, none⟩,
      none, none⟩)
    (fun _ => none) (fun _ => none) (fun _ _ => .error "unused")
    "config.json" "raw"
    ⟨⟨none, none, some "PE", none⟩, ⟨⟨"", "", ""⟩, none⟩, none, none⟩
    rfl rfl rfl rfl (Or.inr rfl)

end Squire
